import Mathlib

/-!
Verification of the audio-reactive-playground repository.

This file gives a shallow embedding, over `ℚ` and `List ℚ`, of the pure
computational core of the repository:

* `src/audio_reactive_playground/audio.py` — the `AudioAnalyzer` class:
  band normalisation (`normalize_band`), Gaussian smoothing of the energy
  tracks (`_compute_energy_tracks`), timestamp-to-frame conversion
  (`librosa.time_to_frames` with `n_fft=2048`, `hop_length=512`), the
  per-frame queries `get_energy_at_time` and `get_beat_index`.

* `src/audio_reactive_playground/visuals/renderer.py` — the `Renderer`
  class: the kick-threshold gating of the bass value in `make_frame`, the
  module swap in `check_scene_evolution`, the kaleidoscope fold, and
  `set_bars`.

Arrays that the code obtains from librosa's signal analysis (the dB
spectrogram `S_db`, the onset envelope, the detected beat frames, the
sample rate) are floating-point results of an FFT pipeline and are treated
as parameters of the embedded functions; everything the code computes from
them is embedded faithfully.  Python floats are modelled as rationals.
-/

namespace ARP

/-! ### Renderer.set_bars (renderer.py lines 60-62)

Python:
```
def set_bars(self, bars):
    self.bars_per_scene = bars
    if bars < 1: self.bars_per_scene = 1
```
The resulting value of `self.bars_per_scene`. -/

def set_bars (bars : ℤ) : ℤ :=
  if bars < 1 then 1 else bars

/-! ### The kick-threshold gating (renderer.py lines 157-163)

Python:
```
raw_bass = levels.get("bass", 0)
if raw_bass < self.kick_threshold:
    levels["bass"] = 0.0
else:
    range_width = 1.0 - self.kick_threshold
    if range_width > 0:
        levels["bass"] = (raw_bass - self.kick_threshold) / range_width
```
The resulting value of `levels["bass"]`; note that when `range_width ≤ 0`
the raw value is left unchanged. -/

def gate_bass (thr raw : ℚ) : ℚ :=
  if raw < thr then 0
  else if 0 < 1 - thr then (raw - thr) / (1 - thr)
  else raw

/-! ### Timestamp to frame index (audio.py lines 95 and 109)

Both per-frame queries call
`librosa.time_to_frames(time, sr=self.sr, hop_length=self.hop_length, n_fft=self.n_fft)`
with `hop_length = 512` and `n_fft = 2048`.  librosa computes
`samples = int(time * sr)` (truncation toward zero) and, because `n_fft`
is passed, subtracts the window-centering offset `n_fft // 2` before the
floor division: `frame = floor((samples - n_fft // 2) / hop_length)`. -/

def truncInt (q : ℚ) : ℤ :=
  if 0 ≤ q then ⌊q⌋ else ⌈q⌉

def time_to_frames (t sr : ℚ) (hop nfft : ℤ) : ℤ :=
  Int.fdiv (truncInt (t * sr) - nfft / 2) hop

/-! ### The analyzer state and its two queries (audio.py lines 93-112)

`sr`, the smoothed tracks and the detected beat frames are the fields of
`AudioAnalyzer` that the two queries read. -/

structure AudioAnalyzer where
  sr : ℚ
  smooth_bass : List ℚ
  smooth_mid : List ℚ
  smooth_high : List ℚ
  accent_track : List ℚ
  beat_frames : List ℤ
deriving DecidableEq

/-- Python list indexing `l[i]`: a nonnegative index must be in range, a
negative index counts from the end; out of range is an `IndexError`,
modelled as `none`. -/
def pyGet (l : List ℚ) (i : ℤ) : Option ℚ :=
  if 0 ≤ i then l[i.toNat]?
  else if 0 ≤ i + l.length then l[(i + l.length).toNat]?
  else none

/-- Result dictionary of `get_energy_at_time`; `accent := none` models the
"accent" key being absent from the returned Python dict. -/
structure Levels where
  bass : ℚ
  mid : ℚ
  high : ℚ
  accent : Option ℚ
deriving DecidableEq

/-- Body of `get_energy_at_time` as a function of the computed
`frame_idx`: the guard `frame_idx >= len(self.smooth_bass)` returns the
dict `{"bass": 0, "mid": 0, "high": 0}` (no "accent" key), otherwise the
tracks are indexed with Python semantics, the "accent" value carrying its
own in-range conditional. -/
def energy_from_frame (A : AudioAnalyzer) (f : ℤ) : Option Levels :=
  if (A.smooth_bass.length : ℤ) ≤ f then
    some { bass := 0, mid := 0, high := 0, accent := none }
  else
    (pyGet A.smooth_bass f).bind fun b =>
    (pyGet A.smooth_mid f).bind fun m =>
    (pyGet A.smooth_high f).bind fun h =>
    (if f < (A.accent_track.length : ℤ) then pyGet A.accent_track f else some 0).bind fun a =>
    some { bass := b, mid := m, high := h, accent := some a }

/-- Embeds `AudioAnalyzer.get_energy_at_time` (audio.py lines 93-105).
A `none` result models an uncaught `IndexError`. -/
def get_energy_at_time (A : AudioAnalyzer) (t : ℚ) : Option Levels :=
  energy_from_frame A (time_to_frames t A.sr 512 2048)

/-- Denotation of `np.searchsorted(a, v)` with the default `side='left'`
on a sorted array: the left insertion index, i.e. the number of entries
strictly below `v`. -/
def searchsorted (a : List ℤ) (v : ℤ) : ℕ :=
  a.countP (fun x => decide (x < v))

/-- Embeds `AudioAnalyzer.get_beat_index` (audio.py lines 107-112). -/
def get_beat_index (A : AudioAnalyzer) (t : ℚ) : ℕ :=
  searchsorted A.beat_frames (time_to_frames t A.sr 512 2048)

/-! ### The module swap of check_scene_evolution (renderer.py lines 87-101)

Python (the `else` branch, taken when `len(self.active_modules) >= 2`):
```
remove_idx = random.randint(0, len(self.active_modules)-1)
old_mod = self.active_modules.pop(remove_idx)
self.fading_out_modules.append((old_mod, t))
factory = random.choice(self.available_module_factories)
new_mod = factory()
self.active_modules.insert(remove_idx, new_mod)
```
The randomly drawn index and freshly built module are parameters; the
function returns the new `(active_modules, fading_out_modules)` pair.
An out-of-range pop would be an `IndexError`; `random.randint` keeps the
index in range, so that case returns the state unchanged here. -/

def scene_swap {α : Type*} (active : List α) (fading : List (α × ℚ)) (i : ℕ)
    (newMod : α) (t : ℚ) : List α × List (α × ℚ) :=
  match active[i]? with
  | none => (active, fading)
  | some old => ((active.eraseIdx i).insertIdx i newMod, fading ++ [(old, t)])

/-! ### The kaleidoscope fold (renderer.py lines 346-355)

Python:
```
quad_w, quad_h = w // 2, h // 2
source = image.crop((0, 0, quad_w, quad_h))
row = Image.new("RGB", (w, quad_h))
row.paste(source, (0, 0))
row.paste(source.transpose(Image.FLIP_LEFT_RIGHT), (quad_w, 0))
full = Image.new("RGB", (w, h))
full.paste(row, (0, 0))
full.paste(row.transpose(Image.FLIP_TOP_BOTTOM), (0, quad_h))
```
Images are pixel functions; `Image.new` fills with the zero colour, so a
coordinate never covered by a paste (possible only at odd sizes) reads
0. -/

def kaleidoscope_fold {α : Type*} [Zero α] (img : ℕ → ℕ → α) (w h : ℕ) :
    ℕ → ℕ → α :=
  fun x y =>
    let qw := w / 2
    let qh := h / 2
    let row : ℕ → ℕ → α := fun x y =>
      if x < qw then img x y
      else if x < 2 * qw then img (2 * qw - 1 - x) y
      else 0
    if y < qh then row x y
    else if y < 2 * qh then row x (2 * qh - 1 - y)
    else 0

/-- Modelled from the spec: `beatIndexAt` described as the count of beat
frames `≤` the frame index (spec.md line 71); used only to compare the
spec's description against the code's `searchsorted` left-insertion
count. -/
def beatIndexSpecCount (a : List ℤ) (v : ℤ) : ℕ :=
  a.countP (fun x => decide (x ≤ v))

/-! ### The energy-track pipeline (audio.py lines 35-91)

`_compute_energy_tracks` masks the dB spectrogram into band submatrices,
averages each band over its frequency bins, normalises by percentile
statistics, clips to `[0,1]`, applies a boost factor (1.5 for bass, 1.0
for mid, 1.2 for high), and smooths with `scipy.ndimage.gaussian_filter1d`.
The band submatrices and the onset envelope are parameters (they come out
of the FFT); the Gaussian kernel of `gaussian_filter1d` (a sampled,
normalised Gaussian; radius `int(truncate * sigma + 0.5)`, reflect
boundary mode) has irrational real entries, so it is a parameter `w`
constrained in the theorems to be nonnegative with sum 1, which scipy's
kernel satisfies. -/

/-- Evaluation of `np.clip(x, lo, hi)`. -/
def clip (x lo hi : ℚ) : ℚ := max lo (min x hi)

/-- Sorted insertion, the auxiliary step of `sortAsc`. -/
def insertAsc (a : ℚ) : List ℚ → List ℚ
  | [] => [a]
  | b :: bs => if a ≤ b then a :: b :: bs else b :: insertAsc a bs

/-- Ascending sort (denotation of the sort `np.percentile` performs). -/
def sortAsc : List ℚ → List ℚ
  | [] => []
  | a :: as => insertAsc a (sortAsc as)

/-- Evaluation of `np.percentile(l, q)` with the default linear
interpolation: position `q/100 * (n-1)` in the ascending sort, linearly
interpolated between the two neighbouring order statistics. -/
def percentile (l : List ℚ) (q : ℚ) : ℚ :=
  if l = [] then 0
  else
    let s := sortAsc l
    let n := l.length
    let pos := q * ((n : ℚ) - 1) / 100
    let lo := (⌊pos⌋).toNat
    let frac := pos - ⌊pos⌋
    s.getD lo 0 + frac * (s.getD (min (lo + 1) (n - 1)) 0 - s.getD lo 0)

/-- Minimum of a list (`np.min`; only applied to nonempty data). -/
def listMin : List ℚ → ℚ
  | [] => 0
  | a :: as => as.foldl min a

/-- Column `j` of `np.mean(data, axis=0)`: the average across the
frequency bins of one band. -/
def colMean (data : List (List ℚ)) (j : ℕ) : ℚ :=
  (data.map (fun r => r.getD j 0)).sum / data.length

/-- Evaluation of `np.mean(data, axis=0)` for a band submatrix with
`nframes` columns. -/
def meanAxis0 (data : List (List ℚ)) (nframes : ℕ) : List ℚ :=
  (List.range nframes).map (colMean data)

/-- Embeds `normalize_band` (audio.py lines 53-65): empty data yields
`np.zeros(nframes)`; otherwise the per-frame band mean is rescaled by
`(x - ref_min) / (ref_max - ref_min + 1e-6)` with `ref_max` the 98th
percentile and `ref_min` the minimum, clipped to `[0,1]`, then multiplied
by `boost`. -/
def normalize_band (data : List (List ℚ)) (nframes : ℕ) (boost : ℚ) : List ℚ :=
  if data.isEmpty then List.replicate nframes 0
  else
    let mean := meanAxis0 data nframes
    let ref_max := percentile mean 98
    let ref_min := listMin mean
    mean.map (fun x => clip ((x - ref_min) / (ref_max - ref_min + 1/1000000)) 0 1 * boost)

/-- Reflect boundary indexing of `scipy.ndimage` (mode 'reflect', the
default of `gaussian_filter1d`): `(d c b a | a b c d | d c b a)`. -/
def reflectIdx (n : ℕ) (i : ℤ) : ℕ :=
  if n = 0 then 0
  else if i % (2 * n) < n then (i % (2 * n)).toNat
  else (2 * n - 1 - i % (2 * n)).toNat

/-- Correlation of the kernel `w` against `x` (reflect-padded), starting
at signal position `i`. -/
def dotRefl (x : List ℚ) : List ℚ → ℤ → ℚ
  | [], _ => 0
  | a :: ws, i => a * x.getD (reflectIdx x.length i) 0 + dotRefl x ws (i + 1)

/-- Embeds `scipy.ndimage.gaussian_filter1d(x, sigma)` for a sampled
kernel `w` of radius `r`: output `j` is the kernel correlated against the
reflect-padded signal centred at `j`. -/
def gaussian_filter1d (x : List ℚ) (w : List ℚ) (r : ℕ) : List ℚ :=
  (List.range x.length).map (fun (j : ℕ) => dotRefl x w ((j : ℤ) - (r : ℤ)))

/-- Embeds the onset normalisation of `_compute_energy_tracks` (audio.py
lines 80-87): if the 99th percentile of the onset envelope is positive
the envelope is divided by it and clipped to `[0, 1.2]`; otherwise the
envelope is passed through unchanged. -/
def onset_norm (env : List ℚ) : List ℚ :=
  let ref := percentile env 99
  if 0 < ref then env.map (fun x => clip (x / ref) 0 (6/5)) else env

/-- `self.smooth_bass` as a function of the bass band submatrix of
`S_db` and the sampled kernel: `gaussian_filter1d(normalize_band(bass_data,
boost=1.5), sigma=2)`. -/
def smooth_bass_track (data : List (List ℚ)) (nframes : ℕ) (w : List ℚ) (r : ℕ) : List ℚ :=
  gaussian_filter1d (normalize_band data nframes (3/2)) w r

/-- `self.smooth_mid`: `gaussian_filter1d(normalize_band(mid_data,
boost=1.0), sigma=4)`. -/
def smooth_mid_track (data : List (List ℚ)) (nframes : ℕ) (w : List ℚ) (r : ℕ) : List ℚ :=
  gaussian_filter1d (normalize_band data nframes 1) w r

/-- `self.smooth_high`: `gaussian_filter1d(normalize_band(high_data,
boost=1.2), sigma=3)`. -/
def smooth_high_track (data : List (List ℚ)) (nframes : ℕ) (w : List ℚ) (r : ℕ) : List ℚ :=
  gaussian_filter1d (normalize_band data nframes (6/5)) w r

/-- `self.accent_track`: `gaussian_filter1d(onset_norm, sigma=1)`. -/
def accent_track_of (env : List ℚ) (w : List ℚ) (r : ℕ) : List ℚ :=
  gaussian_filter1d (onset_norm env) w r

/-- A concrete admissible smoothing kernel of radius 8 (the radius scipy
uses for `sigma = 2` with the default `truncate = 4.0`): normalised
binomial weights, nonnegative and summing to 1. -/
def w16 : List ℚ :=
  [1/65536, 16/65536, 120/65536, 560/65536, 1820/65536, 4368/65536,
   8008/65536, 11440/65536, 12870/65536, 11440/65536, 8008/65536,
   4368/65536, 1820/65536, 560/65536, 120/65536, 16/65536, 1/65536]

end ARP

theorem truncInt_of_nonneg {q : ℚ} (h : 0 ≤ q) : ARP.truncInt q = ⌊q⌋ := by
  simp [ARP.truncInt, h]

/-- Floor of a rational divided by a positive natural agrees with integer
division of its floor. -/
theorem floor_div_natCast (y : ℚ) (n : ℕ) (hn : 0 < n) :
    ⌊y / (n : ℚ)⌋ = ⌊y⌋ / (n : ℤ) := by
  have hn' : (0 : ℚ) < (n : ℚ) := by exact_mod_cast hn
  have key : ∀ z : ℤ, z ≤ ⌊y / (n : ℚ)⌋ ↔ z ≤ ⌊y⌋ / (n : ℤ) := by
    intro z
    rw [Int.le_floor, le_div_iff₀ hn', Int.le_ediv_iff_mul_le (by exact_mod_cast hn)]
    rw [Int.le_floor]
    push_cast
    exact Iff.rfl
  exact le_antisymm ((key _).mp le_rfl) ((key _).mpr le_rfl)

/-- C10: after `set_bars b` the renderer's `bars_per_scene` equals
`max b 1`, hence is at least 1, and the scene-evolution threshold
`beats_per_swap = bars_per_scene * 4` is at least 4 beats, for any
caller-supplied integer including zero or negative bars. -/
theorem C10_set_bars_clamped (b : ℤ) :
    ARP.set_bars b = max b 1 ∧ 1 ≤ ARP.set_bars b ∧ 4 ≤ ARP.set_bars b * 4 := by
  unfold ARP.set_bars
  split <;> omega

/-- C5 counterexample: the claim asserts every gated value is in `[0,1]`,
but with `kick_threshold = 0.6` the raw bass value `1.5` (which the bass
track can produce, since `normalize_band` is applied with `boost = 1.5`)
gates to `9/4 > 1`. -/
theorem C5_gate_counterexample :
    ARP.gate_bass (3/5) (3/2) = 9/4 ∧ ¬ ARP.gate_bass (3/5) (3/2) ≤ 1 := by
  unfold ARP.gate_bass
  norm_num

/-- C5 (amended): for `kick_threshold < 1`, raw values strictly below the
threshold gate to exactly 0, and raw values at or above it gate to
`(raw - thr) / (1 - thr)`, which lies in `[0,1]` provided `raw ≤ 1`
(raw values above 1 gate above 1); the spec's concrete scenarios hold:
at threshold 0.6 a raw 0.6 gates to 0, a raw 0.8 gates to 0.5, and at
threshold 0 a raw 1.0 gates to exactly 1. -/
theorem C5_gate_amended (thr raw : ℚ) (hthr : thr < 1) :
    (raw < thr → ARP.gate_bass thr raw = 0) ∧
    (thr ≤ raw → ARP.gate_bass thr raw = (raw - thr) / (1 - thr)) ∧
    (thr ≤ raw → raw ≤ 1 →
      0 ≤ ARP.gate_bass thr raw ∧ ARP.gate_bass thr raw ≤ 1) ∧
    ARP.gate_bass (3/5) (3/5) = 0 ∧
    ARP.gate_bass (3/5) (4/5) = 1/2 ∧
    ARP.gate_bass 0 1 = 1 := by
  have hpos : 0 < 1 - thr := by linarith
  refine ⟨?_, ?_, ?_, by norm_num [ARP.gate_bass], by norm_num [ARP.gate_bass],
    by norm_num [ARP.gate_bass]⟩
  · intro h
    simp [ARP.gate_bass, h]
  · intro h
    rw [ARP.gate_bass, if_neg (not_lt.mpr h), if_pos hpos]
  · intro h h1
    rw [ARP.gate_bass, if_neg (not_lt.mpr h), if_pos hpos]
    constructor
    · exact div_nonneg (by linarith) (le_of_lt hpos)
    · rw [div_le_one hpos]
      linarith

/-- C2 counterexample: the claim says the frame index is
`floor(time * sampleRate / hopLength)`, but at `t = 0`, `sr = 44100` the
code computes `floor((0 - 2048 // 2) / 512) = -2`, not `floor(0) = 0`:
the conversion includes the STFT centering offset `n_fft // 2`. -/
theorem C2_frame_conversion_counterexample :
    ARP.time_to_frames 0 44100 512 2048 = -2 ∧
    ARP.time_to_frames 0 44100 512 2048 ≠ ⌊(0 : ℚ) * 44100 / 512⌋ := by
  constructor <;> simp [ARP.time_to_frames, ARP.truncInt]

/-- Closed form of the embedded frame conversion: for nonnegative time
and sample rate it is `⌊(t * sr - 1024) / 512⌋`. -/
theorem time_to_frames_eq_floor (t sr : ℚ) (ht : 0 ≤ t) (hsr : 0 ≤ sr) :
    ARP.time_to_frames t sr 512 2048 = ⌊(t * sr - 1024) / 512⌋ := by
  have hx : 0 ≤ t * sr := mul_nonneg ht hsr
  rw [ARP.time_to_frames, truncInt_of_nonneg hx]
  have step : ⌊(t * sr - 1024) / 512⌋ = (⌊t * sr⌋ - 1024) / 512 := by
    rw [show ((512 : ℚ)) = ((512 : ℕ) : ℚ) by norm_num]
    rw [floor_div_natCast _ 512 (by norm_num)]
    rw [show ((1024 : ℚ)) = ((1024 : ℤ) : ℚ) by norm_num]
    rw [Int.floor_sub_int]
    norm_cast
  rw [step, Int.fdiv_eq_ediv _ (by norm_num)]
  norm_num

/-- C2 (amended): for nonnegative time and sample rate, both per-frame
queries convert the timestamp through
`frameIndex = floor((time * sampleRate - n_fft // 2) / hopLength)` with
`hopLength = 512` and `n_fft = 2048`, i.e. the spec's formula shifted by
the STFT window-centering offset `n_fft // 2 = 1024`; `get_energy_at_time`
and `get_beat_index` both index through exactly this value. -/
theorem C2_frame_conversion_amended (t sr : ℚ) (ht : 0 ≤ t) (hsr : 0 ≤ sr) :
    ARP.time_to_frames t sr 512 2048 = ⌊(t * sr - 1024) / 512⌋ ∧
    (∀ A : ARP.AudioAnalyzer, A.sr = sr →
      ARP.get_beat_index A t =
        ARP.searchsorted A.beat_frames ⌊(t * sr - 1024) / 512⌋) := by
  refine ⟨time_to_frames_eq_floor t sr ht hsr, ?_⟩
  intro A hA
  rw [ARP.get_beat_index, hA, time_to_frames_eq_floor t sr ht hsr]

/-- C2 witness: the amended conversion theorem instantiated at
`t = 1`, `sr = 44100`: frame `floor((44100 - 1024)/512) = 84`. -/
theorem C2_frame_conversion_witness :
    (0 ≤ (1 : ℚ)) ∧ (0 ≤ (44100 : ℚ)) ∧
    (ARP.time_to_frames 1 44100 512 2048 = ⌊((1 : ℚ) * 44100 - 1024) / 512⌋ ∧
    (∀ A : ARP.AudioAnalyzer, A.sr = 44100 →
      ARP.get_beat_index A 1 =
        ARP.searchsorted A.beat_frames ⌊((1 : ℚ) * 44100 - 1024) / 512⌋)) :=
  ⟨by norm_num, by norm_num,
    C2_frame_conversion_amended 1 44100 (by norm_num) (by norm_num)⟩

/-- On a strictly increasing list, the left insertion count of
`searchsorted` is characterised positionally: element `j` is below `v`
exactly when `j` is below the returned count. -/
theorem searchsorted_pos_iff (l : List ℤ) (hl : l.Pairwise (· < ·)) (v : ℤ)
    (j : ℕ) (hj : j < l.length) :
    (l.getD j 0 < v ↔ j < ARP.searchsorted l v) := by
  induction l generalizing j with
  | nil => simp at hj
  | cons x xs ih =>
    rcases List.pairwise_cons.mp hl with ⟨hx, hxs⟩
    rw [ARP.searchsorted, List.countP_cons]
    by_cases hxv : x < v
    · cases j with
      | zero =>
        simp [hxv]
      | succ k =>
        have hk : k < xs.length := by simpa using hj
        have := ih hxs k hk
        rw [ARP.searchsorted] at this
        rw [List.getD_cons_succ]
        simpa [hxv, Nat.succ_lt_succ_iff] using this
    · have hzero : xs.countP (fun x => decide (x < v)) = 0 := by
        rw [List.countP_eq_zero]
        intro a ha
        simp only [decide_eq_true_eq]
        exact fun hav => hxv (lt_trans (hx a ha) hav)
      cases j with
      | zero => simp [hxv, hzero]
      | succ k =>
        have hk : k < xs.length := by simpa using hj
        have hmem : xs.getD k 0 ∈ xs := by
          rw [List.getD_eq_getElem?_getD, List.getElem?_eq_getElem hk]
          exact List.getElem_mem hk
        have hnot : ¬ xs.getD k 0 < v := fun hav => hxv (lt_trans (hx _ hmem) hav)
        rw [List.getD_cons_succ]
        simp [hxv, hzero]
        exact not_lt.mp (by simpa [List.getD_eq_getElem?_getD] using hnot)

/-- C3 counterexample: the claim says a beat frame equal to the computed
frame index is included in the count, but `np.searchsorted` with the
default `side='left'` excludes it: with `beat_frames = [7]`, `sr = 1` and
`t = 4608` the frame index is `(4608 - 1024) / 512 = 7`, yet
`get_beat_index` returns 0 while the spec's `≤`-count is 1. -/
theorem C3_beat_count_counterexample :
    ARP.get_beat_index ⟨1, [], [], [], [], [7]⟩ 4608 = 0 ∧
    ARP.time_to_frames 4608 1 512 2048 = 7 ∧
    ARP.beatIndexSpecCount [7] (ARP.time_to_frames 4608 1 512 2048) = 1 := by
  have hfr : ARP.time_to_frames 4608 1 512 2048 = 7 := by
    rw [time_to_frames_eq_floor 4608 1 (by norm_num) (by norm_num)]
    norm_num
  refine ⟨?_, hfr, ?_⟩
  · show ARP.searchsorted [7] (ARP.time_to_frames 4608 1 512 2048) = 0
    rw [hfr]
    decide
  · rw [hfr]
    decide

/-- C3 (amended): `get_beat_index(t)` returns the count of entries in the
strictly increasing `beat_frames` sequence that are strictly less than
the frame index computed for `t` (the left insertion point of the binary
search); a beat frame exactly equal to the frame index is not counted.
Stated positionally: beat `j` is counted exactly when `beat_frames[j]`
is strictly below the frame index. -/
theorem C3_beat_count_amended (A : ARP.AudioAnalyzer)
    (hbf : A.beat_frames.Pairwise (· < ·)) (t : ℚ)
    (j : ℕ) (hj : j < A.beat_frames.length) :
    (A.beat_frames.getD j 0 < ARP.time_to_frames t A.sr 512 2048 ↔
      j < ARP.get_beat_index A t) :=
  searchsorted_pos_iff A.beat_frames hbf _ j hj

/-- C3 witness: the amended theorem instantiated at
`beat_frames = [3, 7]`, `sr = 1`, `t = 4608` (frame index 7), `j = 0`. -/
theorem C3_beat_count_witness :
    ([3, 7] : List ℤ).Pairwise (· < ·) ∧ (0 < ([3, 7] : List ℤ).length) ∧
    (([3, 7] : List ℤ).getD 0 0 < ARP.time_to_frames 4608 1 512 2048 ↔
      0 < ARP.get_beat_index ⟨1, [], [], [], [], [3, 7]⟩ 4608) :=
  ⟨by decide, by decide,
    C3_beat_count_amended ⟨1, [], [], [], [], [3, 7]⟩ (by decide) 4608 0 (by decide)⟩

/-- C4: the beat index is monotonically non-decreasing in time: for
`0 ≤ t1 < t2` and a nonnegative sample rate,
`get_beat_index(t1) ≤ get_beat_index(t2)`. -/
theorem C4_beat_index_monotone (A : ARP.AudioAnalyzer) (t1 t2 : ℚ)
    (h0 : 0 ≤ t1) (h12 : t1 < t2) (hsr : 0 ≤ A.sr) :
    ARP.get_beat_index A t1 ≤ ARP.get_beat_index A t2 := by
  have h0' : 0 ≤ t2 := le_of_lt (lt_of_le_of_lt h0 h12)
  have hframe : ARP.time_to_frames t1 A.sr 512 2048 ≤
      ARP.time_to_frames t2 A.sr 512 2048 := by
    rw [time_to_frames_eq_floor t1 A.sr h0 hsr,
      time_to_frames_eq_floor t2 A.sr h0' hsr]
    apply Int.floor_mono
    have : t1 * A.sr ≤ t2 * A.sr :=
      mul_le_mul_of_nonneg_right (le_of_lt h12) hsr
    apply div_le_div_of_nonneg_right _ (by norm_num)
    · linarith
  unfold ARP.get_beat_index ARP.searchsorted
  apply List.countP_mono_left
  intro x _ hx
  simp only [decide_eq_true_eq] at hx ⊢
  exact lt_of_lt_of_le hx hframe

/-- C4 witness: monotonicity instantiated at `beat_frames = [3, 7]`,
`sr = 1`, `t1 = 2000`, `t2 = 4608`. -/
theorem C4_beat_index_monotone_witness :
    (0 ≤ (2000 : ℚ)) ∧ ((2000 : ℚ) < 4608) ∧
      (0 ≤ (ARP.AudioAnalyzer.mk 1 [] [] [] [] [3, 7]).sr) ∧
    ARP.get_beat_index ⟨1, [], [], [], [], [3, 7]⟩ 2000 ≤
      ARP.get_beat_index ⟨1, [], [], [], [], [3, 7]⟩ 4608 :=
  ⟨by norm_num, by norm_num, by norm_num,
    C4_beat_index_monotone ⟨1, [], [], [], [], [3, 7]⟩ 2000 4608
      (by norm_num) (by norm_num) (by norm_num)⟩

/-- C5 witness: the amended gating theorem instantiated at
`kick_threshold = 3/5`, `raw = 4/5`. -/
theorem C5_gate_witness :
    ((3:ℚ)/5 < 1) ∧
    (((4:ℚ)/5 < 3/5 → ARP.gate_bass (3/5) (4/5) = 0) ∧
    ((3:ℚ)/5 ≤ 4/5 → ARP.gate_bass (3/5) (4/5) = (4/5 - 3/5) / (1 - 3/5)) ∧
    ((3:ℚ)/5 ≤ 4/5 → (4:ℚ)/5 ≤ 1 →
      0 ≤ ARP.gate_bass (3/5) (4/5) ∧ ARP.gate_bass (3/5) (4/5) ≤ 1) ∧
    ARP.gate_bass (3/5) (3/5) = 0 ∧
    ARP.gate_bass (3/5) (4/5) = 1/2 ∧
    ARP.gate_bass 0 1 = 1) :=
  ⟨by norm_num, C5_gate_amended (3/5) (4/5) (by norm_num)⟩

/-- Python indexing with a negative index that stays in range counts from
the end of the list. -/
theorem pyGet_neg (l : List ℚ) (i : ℤ) (hi : i < 0) (hlen : 0 ≤ i + l.length) :
    ARP.pyGet l i = some (l.getD (i + l.length).toNat 0) := by
  have hk : (i + l.length).toNat < l.length := by omega
  rw [ARP.pyGet, if_neg (by omega), if_pos hlen, List.getElem?_eq_getElem hk,
    List.getD_eq_getElem l 0 hk]

/-- When the computed frame index is negative but within range of every
track, the guard `frame_idx >= len(self.smooth_bass)` does not fire and
the energy dictionary is built from frames counted from the end of each
track (Python negative indexing). -/
theorem energy_from_frame_neg (A : ARP.AudioAnalyzer) (i : ℤ) (hi : i < 0)
    (hb : 0 ≤ i + A.smooth_bass.length) (hm : 0 ≤ i + A.smooth_mid.length)
    (hh : 0 ≤ i + A.smooth_high.length) (ha : 0 ≤ i + A.accent_track.length) :
    ARP.energy_from_frame A i = some
      { bass := A.smooth_bass.getD (i + A.smooth_bass.length).toNat 0,
        mid := A.smooth_mid.getD (i + A.smooth_mid.length).toNat 0,
        high := A.smooth_high.getD (i + A.smooth_high.length).toNat 0,
        accent := some (A.accent_track.getD (i + A.accent_track.length).toNat 0) } := by
  have hneg : ¬ ((A.smooth_bass.length : ℤ) ≤ i) := by omega
  rw [ARP.energy_from_frame, if_neg hneg,
    pyGet_neg A.smooth_bass i hi hb, pyGet_neg A.smooth_mid i hi hm,
    pyGet_neg A.smooth_high i hi hh,
    if_pos (show i < (A.accent_track.length : ℤ) by omega),
    pyGet_neg A.accent_track i hi ha]
  simp only [Option.some_bind]

/-- C6 counterexample: the claim says an out-of-range query returns all
four components present and zero, but the early return
`{"bass": 0, "mid": 0, "high": 0}` omits the "accent" key: with two-frame
tracks and `t = 100` s at `sr = 44100` (frame index 8611, past the end),
the returned dict has no accent entry at all. -/
theorem C6_past_end_counterexample :
    ARP.get_energy_at_time ⟨44100, [5, 5], [6, 6], [7, 7], [8, 8], []⟩ 100 =
      some { bass := 0, mid := 0, high := 0, accent := none } ∧
    ARP.Levels.accent { bass := 0, mid := 0, high := 0, accent := none } ≠ some 0 := by
  constructor
  · have hfr : ARP.time_to_frames 100 44100 512 2048 = 8611 := by
      rw [time_to_frames_eq_floor 100 44100 (by norm_num) (by norm_num)]
      norm_num
    rw [ARP.get_energy_at_time]
    show ARP.energy_from_frame _ (ARP.time_to_frames 100 44100 512 2048) = _
    rw [hfr, ARP.energy_from_frame, if_pos (by decide)]
  · simp

/-- C6 (amended): for every time whose computed frame index is at or past
the end of the bass track, `get_energy_at_time` returns (without raising)
a mapping in which bass, mid and high are present and equal to 0 and the
"accent" key is absent; callers read accent via `.get("accent", 0)`, so
they observe 0. -/
theorem C6_past_end_amended (A : ARP.AudioAnalyzer) (t : ℚ)
    (h : (A.smooth_bass.length : ℤ) ≤ ARP.time_to_frames t A.sr 512 2048) :
    ARP.get_energy_at_time A t =
      some { bass := 0, mid := 0, high := 0, accent := none } := by
  rw [ARP.get_energy_at_time, ARP.energy_from_frame, if_pos h]

/-- C6 witness: the amended theorem instantiated at two-frame tracks and
`t = 100` s at `sr = 44100`. -/
theorem C6_past_end_witness :
    (((ARP.AudioAnalyzer.mk 44100 [5, 5] [6, 6] [7, 7] [8, 8] []).smooth_bass.length : ℤ) ≤
      ARP.time_to_frames 100 (ARP.AudioAnalyzer.mk 44100 [5, 5] [6, 6] [7, 7] [8, 8] []).sr
        512 2048) ∧
    ARP.get_energy_at_time (ARP.AudioAnalyzer.mk 44100 [5, 5] [6, 6] [7, 7] [8, 8] []) 100 =
      some { bass := 0, mid := 0, high := 0, accent := none } := by
  have h : ((ARP.AudioAnalyzer.mk 44100 [5, 5] [6, 6] [7, 7] [8, 8] []).smooth_bass.length : ℤ) ≤
      ARP.time_to_frames 100 (ARP.AudioAnalyzer.mk 44100 [5, 5] [6, 6] [7, 7] [8, 8] []).sr
        512 2048 := by
    show ((2 : ℕ) : ℤ) ≤ ARP.time_to_frames 100 44100 512 2048
    rw [time_to_frames_eq_floor 100 44100 (by norm_num) (by norm_num)]
    norm_num
  exact ⟨h, C6_past_end_amended _ 100 h⟩

/-- C9: for every time with `0 ≤ t * sampleRate < n_fft/2 = 1024` and at
least two analysis frames in each track, the computed frame index is `-1`
or `-2`; it passes the past-the-end guard and indexes every track from
the end (Python negative indexing), so the query returns band energies
taken from the final one or two frames of the analyzed window rather than
from its start. -/
theorem C9_small_time_reads_final_frames (A : ARP.AudioAnalyzer) (t : ℚ)
    (h0 : 0 ≤ t * A.sr) (h1 : t * A.sr < 1024)
    (hb : 2 ≤ A.smooth_bass.length) (hm : 2 ≤ A.smooth_mid.length)
    (hh : 2 ≤ A.smooth_high.length) (ha : 2 ≤ A.accent_track.length) :
    (ARP.time_to_frames t A.sr 512 2048 = -1 ∧
      ARP.get_energy_at_time A t = some
        { bass := A.smooth_bass.getD (A.smooth_bass.length - 1) 0,
          mid := A.smooth_mid.getD (A.smooth_mid.length - 1) 0,
          high := A.smooth_high.getD (A.smooth_high.length - 1) 0,
          accent := some (A.accent_track.getD (A.accent_track.length - 1) 0) }) ∨
    (ARP.time_to_frames t A.sr 512 2048 = -2 ∧
      ARP.get_energy_at_time A t = some
        { bass := A.smooth_bass.getD (A.smooth_bass.length - 2) 0,
          mid := A.smooth_mid.getD (A.smooth_mid.length - 2) 0,
          high := A.smooth_high.getD (A.smooth_high.length - 2) 0,
          accent := some (A.accent_track.getD (A.accent_track.length - 2) 0) }) := by
  have hs0 : (0 : ℤ) ≤ ⌊t * A.sr⌋ := Int.floor_nonneg.mpr h0
  have hs1 : ⌊t * A.sr⌋ < 1024 := by
    rw [Int.floor_lt]
    exact_mod_cast h1
  have hf : ARP.time_to_frames t A.sr 512 2048 = (⌊t * A.sr⌋ - 1024) / 512 := by
    rw [ARP.time_to_frames, truncInt_of_nonneg h0, Int.fdiv_eq_ediv _ (by norm_num)]
    norm_num
  have hcase : (⌊t * A.sr⌋ - 1024) / 512 = -1 ∨ (⌊t * A.sr⌋ - 1024) / 512 = -2 := by
    omega
  rcases hcase with hc | hc
  · left
    have hfr : ARP.time_to_frames t A.sr 512 2048 = -1 := by rw [hf, hc]
    refine ⟨hfr, ?_⟩
    rw [ARP.get_energy_at_time, hfr,
      energy_from_frame_neg A (-1) (by norm_num) (by omega) (by omega) (by omega) (by omega)]
    have eb : ((-1 : ℤ) + A.smooth_bass.length).toNat = A.smooth_bass.length - 1 := by omega
    have em : ((-1 : ℤ) + A.smooth_mid.length).toNat = A.smooth_mid.length - 1 := by omega
    have eh : ((-1 : ℤ) + A.smooth_high.length).toNat = A.smooth_high.length - 1 := by omega
    have ea : ((-1 : ℤ) + A.accent_track.length).toNat = A.accent_track.length - 1 := by omega
    rw [eb, em, eh, ea]
  · right
    have hfr : ARP.time_to_frames t A.sr 512 2048 = -2 := by rw [hf, hc]
    refine ⟨hfr, ?_⟩
    rw [ARP.get_energy_at_time, hfr,
      energy_from_frame_neg A (-2) (by norm_num) (by omega) (by omega) (by omega) (by omega)]
    have eb : ((-2 : ℤ) + A.smooth_bass.length).toNat = A.smooth_bass.length - 2 := by omega
    have em : ((-2 : ℤ) + A.smooth_mid.length).toNat = A.smooth_mid.length - 2 := by omega
    have eh : ((-2 : ℤ) + A.smooth_high.length).toNat = A.smooth_high.length - 2 := by omega
    have ea : ((-2 : ℤ) + A.accent_track.length).toNat = A.accent_track.length - 2 := by omega
    rw [eb, em, eh, ea]

/-- C9 witness: the theorem instantiated at `t = 0`, `sr = 44100` and
two-frame tracks: the frame index is `-2` and the query returns the
first-from-last-but-one entries, i.e. the heads of the two-element
tracks. -/
theorem C9_small_time_reads_final_frames_witness :
    (0 ≤ (0 : ℚ) * (ARP.AudioAnalyzer.mk 44100 [5, 6] [7, 8] [9, 10] [11, 12] []).sr) ∧
    ((0 : ℚ) * (ARP.AudioAnalyzer.mk 44100 [5, 6] [7, 8] [9, 10] [11, 12] []).sr < 1024) ∧
    ((ARP.time_to_frames 0 (ARP.AudioAnalyzer.mk 44100 [5, 6] [7, 8] [9, 10] [11, 12] []).sr
        512 2048 = -1 ∧
      ARP.get_energy_at_time (ARP.AudioAnalyzer.mk 44100 [5, 6] [7, 8] [9, 10] [11, 12] []) 0 =
        some { bass := [5, 6].getD 1 0, mid := [7, 8].getD 1 0,
               high := [9, 10].getD 1 0, accent := some ([11, 12].getD 1 0) }) ∨
     (ARP.time_to_frames 0 (ARP.AudioAnalyzer.mk 44100 [5, 6] [7, 8] [9, 10] [11, 12] []).sr
        512 2048 = -2 ∧
      ARP.get_energy_at_time (ARP.AudioAnalyzer.mk 44100 [5, 6] [7, 8] [9, 10] [11, 12] []) 0 =
        some { bass := [5, 6].getD 0 0, mid := [7, 8].getD 0 0,
               high := [9, 10].getD 0 0, accent := some ([11, 12].getD 0 0) })) := by
  refine ⟨by norm_num, by norm_num, ?_⟩
  exact C9_small_time_reads_final_frames (ARP.AudioAnalyzer.mk 44100 [5, 6] [7, 8] [9, 10] [11, 12] [])
    0 (by norm_num) (by norm_num) (by decide) (by decide) (by decide) (by decide)

/-- C7: a scene-evolution swap with at least 2 active modules keeps the
list length, places the fresh module at exactly the retired module's
index, leaves every other index unchanged, and appends the retired module
paired with the current time to the fading-out list. -/
theorem C7_swap_preserves_layout {α : Type*} (active : List α)
    (fading : List (α × ℚ)) (i : ℕ) (newMod : α) (t : ℚ)
    (h2 : 2 ≤ active.length) (hi : i < active.length) :
    (ARP.scene_swap active fading i newMod t).1.length = active.length ∧
    (ARP.scene_swap active fading i newMod t).1[i]? = some newMod ∧
    (∀ j : ℕ, j ≠ i →
      (ARP.scene_swap active fading i newMod t).1[j]? = active[j]?) ∧
    (ARP.scene_swap active fading i newMod t).2 =
      fading ++ [(active.get ⟨i, hi⟩, t)] := by
  have hsome : active[i]? = some (active.get ⟨i, hi⟩) := by
    rw [List.getElem?_eq_getElem hi, List.get_eq_getElem]
  have herase : (active.eraseIdx i).length = active.length - 1 := by
    rw [List.length_eraseIdx, if_pos hi]
  have hile : i ≤ (active.eraseIdx i).length := by omega
  have hlen : ((active.eraseIdx i).insertIdx i newMod).length = active.length := by
    rw [List.length_insertIdx i _ hile]
    omega
  simp only [ARP.scene_swap, hsome]
  refine ⟨hlen, ?_, ?_, trivial⟩
  · rw [List.getElem?_eq_getElem (by omega : i < ((active.eraseIdx i).insertIdx i newMod).length)]
    rw [List.getElem_insertIdx_self _ _ _ hile]
  · intro j hj
    by_cases hjl : j < active.length
    · rw [List.getElem?_eq_getElem hjl,
        List.getElem?_eq_getElem (by omega : j < ((active.eraseIdx i).insertIdx i newMod).length)]
      rcases Nat.lt_or_ge j i with hlt | hge
      · rw [List.getElem_insertIdx_of_lt _ _ _ _ hlt (by omega)]
        rw [List.getElem_eraseIdx_of_lt _ _ _ (by omega) hlt]
      · have hgt : i < j := Nat.lt_of_le_of_ne hge (fun h => hj h.symm)
        obtain ⟨k, hk⟩ : ∃ k, j = i + k + 1 := ⟨j - i - 1, by omega⟩
        subst hk
        rw [List.getElem_insertIdx_add_succ _ _ _ _ (by omega)]
        rw [List.getElem_eraseIdx_of_ge _ _ _ (by omega) (by omega)]
    · rw [List.getElem?_eq_none (by omega), List.getElem?_eq_none (by omega)]

/-- C7 witness: the swap theorem instantiated at `active = [10, 20]`,
`i = 1`, `newMod = 30`, `t = 5`, empty fading list. -/
theorem C7_swap_preserves_layout_witness :
    (2 ≤ ([10, 20] : List ℕ).length) ∧ (1 < ([10, 20] : List ℕ).length) ∧
    ((ARP.scene_swap ([10, 20] : List ℕ) [] 1 30 5).1.length = ([10, 20] : List ℕ).length ∧
    (ARP.scene_swap ([10, 20] : List ℕ) [] 1 30 5).1[1]? = some 30 ∧
    (∀ j : ℕ, j ≠ 1 →
      (ARP.scene_swap ([10, 20] : List ℕ) [] 1 30 5).1[j]? = ([10, 20] : List ℕ)[j]?) ∧
    (ARP.scene_swap ([10, 20] : List ℕ) [] 1 30 5).2 =
      [] ++ [(([10, 20] : List ℕ).get ⟨1, by decide⟩, 5)]) :=
  ⟨by decide, by decide,
    C7_swap_preserves_layout [10, 20] [] 1 30 5 (by decide) (by decide)⟩

/-- C8: for even width and height, the folded image satisfies exact 4-way
symmetry: for all `x < w/2`, `y < h/2` the pixels `(x,y)`, `(w-1-x,y)`,
`(x,h-1-y)` and `(w-1-x,h-1-y)` agree, and the top-left quadrant equals
the top-left quadrant of the input. -/
theorem C8_kaleidoscope_symmetry {α : Type*} [Zero α] (img : ℕ → ℕ → α)
    (w h x y : ℕ) (hw : w % 2 = 0) (hh : h % 2 = 0)
    (hx : x < w / 2) (hy : y < h / 2) :
    ARP.kaleidoscope_fold img w h x y = img x y ∧
    ARP.kaleidoscope_fold img w h (w - 1 - x) y = img x y ∧
    ARP.kaleidoscope_fold img w h x (h - 1 - y) = img x y ∧
    ARP.kaleidoscope_fold img w h (w - 1 - x) (h - 1 - y) = img x y := by
  refine ⟨?_, ?_, ?_, ?_⟩ <;> simp only [ARP.kaleidoscope_fold]
  · rw [if_pos hy, if_pos hx]
  · rw [if_pos hy, if_neg (by omega), if_pos (by omega)]
    congr 1
    omega
  · rw [if_neg (by omega), if_pos (by omega), if_pos hx]
    congr 1
    omega
  · rw [if_neg (by omega), if_pos (by omega), if_neg (by omega), if_pos (by omega)]
    congr 1
    · omega
    · omega

/-- C8 witness: the symmetry theorem instantiated at the renderer's
frame size 1080 by 1920 with the coordinate-encoding test image
`img a b = a + 1000 * b` at `(x, y) = (3, 5)`. -/
theorem C8_kaleidoscope_symmetry_witness :
    (1080 % 2 = 0) ∧ (1920 % 2 = 0) ∧ (3 < 1080 / 2) ∧ (5 < 1920 / 2) ∧
    (ARP.kaleidoscope_fold (fun a b => (a : ℚ) + 1000 * b) 1080 1920 3 5 =
      (fun a b => (a : ℚ) + 1000 * b) 3 5 ∧
    ARP.kaleidoscope_fold (fun a b => (a : ℚ) + 1000 * b) 1080 1920 (1080 - 1 - 3) 5 =
      (fun a b => (a : ℚ) + 1000 * b) 3 5 ∧
    ARP.kaleidoscope_fold (fun a b => (a : ℚ) + 1000 * b) 1080 1920 3 (1920 - 1 - 5) =
      (fun a b => (a : ℚ) + 1000 * b) 3 5 ∧
    ARP.kaleidoscope_fold (fun a b => (a : ℚ) + 1000 * b) 1080 1920 (1080 - 1 - 3) (1920 - 1 - 5) =
      (fun a b => (a : ℚ) + 1000 * b) 3 5) :=
  ⟨by decide, by decide, by decide, by decide,
    C8_kaleidoscope_symmetry (fun a b => (a : ℚ) + 1000 * b) 1080 1920 3 5
      (by decide) (by decide) (by decide) (by decide)⟩

theorem getD_mem (l : List ℚ) (k : ℕ) (h : k < l.length) : l.getD k 0 ∈ l := by
  rw [List.getD_eq_getElem l 0 h]
  exact List.getElem_mem h

theorem reflectIdx_lt (n : ℕ) (hn : 0 < n) (i : ℤ) : ARP.reflectIdx n i < n := by
  rw [ARP.reflectIdx, if_neg (by omega : ¬ n = 0)]
  split <;> omega

/-- The reflect-padded correlation of a nonnegative kernel against a
signal whose entries lie in `[lo, hi]` lies in `[lo * Σw, hi * Σw]`. -/
theorem dotRefl_bounds (x : List ℚ) (lo hi : ℚ)
    (hx : ∀ b ∈ x, lo ≤ b ∧ b ≤ hi) (hne : x ≠ []) :
    ∀ (w : List ℚ), (∀ a ∈ w, 0 ≤ a) → ∀ i : ℤ,
      lo * w.sum ≤ ARP.dotRefl x w i ∧ ARP.dotRefl x w i ≤ hi * w.sum := by
  intro w
  induction w with
  | nil =>
    intro _ i
    simp [ARP.dotRefl]
  | cons a ws ih =>
    intro hw i
    have ha : 0 ≤ a := hw a (List.mem_cons_self a ws)
    have hws : ∀ b ∈ ws, 0 ≤ b := fun b hb => hw b (List.mem_cons_of_mem a hb)
    have hv := hx _ (getD_mem x _ (reflectIdx_lt x.length (List.length_pos.mpr hne) i))
    have hrec := ih hws (i + 1)
    rw [ARP.dotRefl, List.sum_cons]
    constructor
    · have h1 : a * lo ≤ a * x.getD (ARP.reflectIdx x.length i) 0 :=
        mul_le_mul_of_nonneg_left hv.1 ha
      calc lo * (a + ws.sum) = a * lo + lo * ws.sum := by ring
        _ ≤ a * x.getD (ARP.reflectIdx x.length i) 0 + ARP.dotRefl x ws (i + 1) :=
          add_le_add h1 hrec.1
    · have h1 : a * x.getD (ARP.reflectIdx x.length i) 0 ≤ a * hi :=
        mul_le_mul_of_nonneg_left hv.2 ha
      calc a * x.getD (ARP.reflectIdx x.length i) 0 + ARP.dotRefl x ws (i + 1)
          ≤ a * hi + hi * ws.sum := add_le_add h1 hrec.2
        _ = hi * (a + ws.sum) := by ring

/-- Smoothing with a nonnegative kernel of total mass 1 preserves entry
bounds. -/
theorem gaussian_filter1d_bounds (x w : List ℚ) (r : ℕ) (lo hi : ℚ)
    (hw : ∀ a ∈ w, 0 ≤ a) (hsum : w.sum = 1)
    (hx : ∀ b ∈ x, lo ≤ b ∧ b ≤ hi) :
    ∀ c ∈ ARP.gaussian_filter1d x w r, lo ≤ c ∧ c ≤ hi := by
  intro c hc
  rw [ARP.gaussian_filter1d] at hc
  rcases List.mem_map.mp hc with ⟨j, hj, rfl⟩
  have hne : x ≠ [] := by
    have hlen := List.mem_range.mp hj
    intro h
    rw [h] at hlen
    simp at hlen
  have hb := dotRefl_bounds x lo hi hx hne w hw ((j : ℤ) - r)
  rw [hsum] at hb
  simpa using hb

theorem clip_mem (x lo hi : ℚ) (h : lo ≤ hi) :
    lo ≤ ARP.clip x lo hi ∧ ARP.clip x lo hi ≤ hi :=
  ⟨le_max_left _ _, max_le h (min_le_right _ _)⟩

/-- Every entry of a normalised band lies in `[0, boost]`. -/
theorem normalize_band_bounds (data : List (List ℚ)) (nframes : ℕ)
    (boost : ℚ) (hb : 0 ≤ boost) :
    ∀ c ∈ ARP.normalize_band data nframes boost, 0 ≤ c ∧ c ≤ boost := by
  intro c hc
  simp only [ARP.normalize_band] at hc
  split at hc
  · rw [List.eq_of_mem_replicate hc]
    exact ⟨le_refl 0, hb⟩
  · rcases List.mem_map.mp hc with ⟨v, hv, rfl⟩
    have hclip := clip_mem ((v - ARP.listMin (ARP.meanAxis0 data nframes)) /
      (ARP.percentile (ARP.meanAxis0 data nframes) 98 -
        ARP.listMin (ARP.meanAxis0 data nframes) + 1/1000000)) 0 1 (by norm_num)
    constructor
    · exact mul_nonneg hclip.1 hb
    · calc ARP.clip _ 0 1 * boost ≤ 1 * boost :=
          mul_le_mul_of_nonneg_right hclip.2 hb
        _ = boost := one_mul boost

/-- When the onset reference percentile is positive, the normalised onset
envelope is clipped into `[0, 1.2]`. -/
theorem onset_norm_bounds (env : List ℚ) (h : 0 < ARP.percentile env 99) :
    ∀ c ∈ ARP.onset_norm env, 0 ≤ c ∧ c ≤ 6/5 := by
  intro c hc
  simp only [ARP.onset_norm] at hc
  rw [if_pos h] at hc
  rcases List.mem_map.mp hc with ⟨v, hv, rfl⟩
  exact clip_mem _ 0 (6/5) (by norm_num)

/-- C1 (amended): for every band submatrix and admissible smoothing
kernel (nonnegative entries summing to 1, as scipy's sampled Gaussian
kernels are), every element of the smoothed bass track lies in `[0, 1.5]`
(not `[0, 1]`: `normalize_band` multiplies the clipped values by
`boost = 1.5`), every element of the smoothed mid track lies in `[0, 1]`,
every element of the smoothed high track lies in `[0, 1.2]`, and, whenever
the 99th-percentile onset reference is positive, every element of the
accent track lies in `[0, 1.2]`. -/
theorem C1_energy_bounds_amended
    (bassData midData highData : List (List ℚ)) (nframes : ℕ) (env : List ℚ)
    (wB wM wH wA : List ℚ) (rB rM rH rA : ℕ)
    (hwB : ∀ a ∈ wB, 0 ≤ a) (hsB : wB.sum = 1)
    (hwM : ∀ a ∈ wM, 0 ≤ a) (hsM : wM.sum = 1)
    (hwH : ∀ a ∈ wH, 0 ≤ a) (hsH : wH.sum = 1)
    (hwA : ∀ a ∈ wA, 0 ≤ a) (hsA : wA.sum = 1) :
    (∀ c ∈ ARP.smooth_bass_track bassData nframes wB rB, 0 ≤ c ∧ c ≤ 3/2) ∧
    (∀ c ∈ ARP.smooth_mid_track midData nframes wM rM, 0 ≤ c ∧ c ≤ 1) ∧
    (∀ c ∈ ARP.smooth_high_track highData nframes wH rH, 0 ≤ c ∧ c ≤ 6/5) ∧
    (0 < ARP.percentile env 99 →
      ∀ c ∈ ARP.accent_track_of env wA rA, 0 ≤ c ∧ c ≤ 6/5) := by
  refine ⟨?_, ?_, ?_, ?_⟩
  · exact gaussian_filter1d_bounds _ wB rB 0 (3/2) hwB hsB
      (normalize_band_bounds bassData nframes (3/2) (by norm_num))
  · exact gaussian_filter1d_bounds _ wM rM 0 1 hwM hsM
      (normalize_band_bounds midData nframes 1 (by norm_num))
  · exact gaussian_filter1d_bounds _ wH rH 0 (6/5) hwH hsH
      (normalize_band_bounds highData nframes (6/5) (by norm_num))
  · intro h
    exact gaussian_filter1d_bounds _ wA rA 0 (6/5) hwA hsA (onset_norm_bounds env h)

set_option maxRecDepth 10000 in
/-- C1 counterexample: the claim bounds every smoothed bass value by 1,
but `normalize_band` multiplies the clipped values by `boost = 1.5`.  With
the realistic one-bin bass submatrix `[-80, 0, 0, ..., 0]` (50 frames of
dB values) the 98th-percentile reference is 0, the minimum is -80, so
frames 1..49 normalise to `80/(80 + 1e-6)`, and after the 1.5 boost and
smoothing with the admissible radius-8 kernel `w16` (any nonnegative
sum-1 kernel of radius at most 24 gives the same value here, the plateau
being wider than the kernel) the track value at frame 25 is
`120000000/80000001 ≈ 1.4999999813 > 1`. -/
theorem C1_energy_bounds_counterexample :
    (∀ a ∈ ARP.w16, 0 ≤ a) ∧ ARP.w16.sum = 1 ∧
    1 < (ARP.smooth_bass_track [(-80 : ℚ) :: List.replicate 49 0] 50 ARP.w16 8).getD 25 0 := by
  refine ⟨?_, ?_, ?_⟩
  · with_unfolding_all decide
  · with_unfolding_all decide
  · with_unfolding_all decide

/-- C1 witness: the amended bounds theorem instantiated at one-bin band
matrices over two frames, the onset envelope `[0, 2]` and the trivial
admissible kernel `[1]` of radius 0. -/
theorem C1_energy_bounds_witness :
    (∀ a ∈ [(1 : ℚ)], 0 ≤ a) ∧ ([(1 : ℚ)].sum = 1) ∧
    ((∀ c ∈ ARP.smooth_bass_track [[-80, 0]] 2 [1] 0, 0 ≤ c ∧ c ≤ 3/2) ∧
     (∀ c ∈ ARP.smooth_mid_track [[-40]] 2 [1] 0, 0 ≤ c ∧ c ≤ 1) ∧
     (∀ c ∈ ARP.smooth_high_track [[0, -20]] 2 [1] 0, 0 ≤ c ∧ c ≤ 6/5) ∧
     (0 < ARP.percentile [0, 2] 99 →
       ∀ c ∈ ARP.accent_track_of [0, 2] [1] 0, 0 ≤ c ∧ c ≤ 6/5)) :=
  ⟨by simp, by simp,
    C1_energy_bounds_amended [[-80, 0]] [[-40]] [[0, -20]] 2 [0, 2]
      [1] [1] [1] [1] 0 0 0 0
      (by simp) (by simp) (by simp) (by simp)
      (by simp) (by simp) (by simp) (by simp)⟩
